import Mathlib

/-!
Verification of the meal-planner repository's shopping-list generation core.

This file shallowly embeds the relevant JavaScript source
(`src/js/store.js`, `src/js/utils/units.js`, and the budget summary in
`src/js/views/planner.js`) into Lean and proves properties of the embedding.

Modelling conventions:
* Sheet-backed records carry `String` fields, matching `sheets.readAsObjects`,
  which fills every cell as a string (missing cells become `""`).
* JavaScript numbers are modelled as `ℚ`.  `parseFloat` is modelled by
  `jsParseFloat : String → Option ℚ`, where `none` stands for `NaN`
  (the model covers finite decimal syntax with optional exponent; the
  special literal `Infinity` is outside the model).  The JavaScript idiom
  `parseFloat(x) || d` (both `NaN` and `0` are falsy) is `orElseNum d`.
* `String.toLowerCase()` is modelled by `String.toLower`, and `.trim()` by
  `trimStr` (dropping whitespace characters from both ends).
* `Math.round` rounds half toward positive infinity, exactly as Mathlib's
  `round` on `ℚ`; `x.toFixed(2)` is modelled as the rational rounded to two
  decimals (`round2`), abstracting from decimal string formatting.
* Dates compared through `new Date(...)` are modelled as integer day indices,
  `setDate(getDate() + 7)` as adding 7.
-/

/-- JavaScript whitespace class (the ASCII part), used by `trim` and `\s`. -/
def isWs (c : Char) : Bool :=
  c = ' ' || c = '\t' || c = '\n' || c = '\r' || c = '\x0b' || c = '\x0c'

/-- ASCII digit test, the JavaScript regex class `\d`. -/
def isDig (c : Char) : Bool :=
  '0' ≤ c && c ≤ '9'

/-- Value of a string of decimal digit characters (how `parseInt` reads an
all-digit string). -/
def digitsToNat (l : List Char) : ℕ :=
  l.foldl (fun a c => 10 * a + (c.toNat - 48)) 0

/-- Drop whitespace from both ends of a character list. -/
def trimL (l : List Char) : List Char :=
  ((l.dropWhile isWs).reverse.dropWhile isWs).reverse

/-- Model of JavaScript `String.prototype.trim`. -/
def trimStr (s : String) : String :=
  ⟨trimL s.data⟩

/-- The syntactic pieces of a scanned JavaScript float literal: sign, integer
part, fraction digits (value and count), exponent sign and value.  A literal
without an exponent scans with exponent `(false, 0)`, whose factor is 1. -/
structure FloatScan where
  neg : Bool
  ip : ℕ
  fv : ℕ
  fl : ℕ
  en : Bool
  ev : ℕ
deriving DecidableEq, Repr

/-- Numeric value of a scanned float literal. -/
def FloatScan.toRat (f : FloatScan) : ℚ :=
  let mant : ℚ := (f.ip : ℚ) + (f.fv : ℚ) / (10 : ℚ) ^ f.fl
  let v := mant * (10 : ℚ) ^ (cond f.en (-(f.ev : ℤ)) (f.ev : ℤ))
  cond f.neg (-v) v

/-- Exponent suffix after `e`/`E`: optional sign, digits.  A malformed
exponent is not consumed (`parseFloat("1e") = 1`), scanning as `(false, 0)`. -/
def scanExpPart (r : List Char) : Bool × ℕ :=
  let p : Bool × List Char :=
    match r with
    | '+' :: t => (false, t)
    | '-' :: t => (true, t)
    | _ => (false, r)
  let es := p.2.takeWhile isDig
  if es.isEmpty then (false, 0) else (p.1, digitsToNat es)

/-- Optional exponent part following the mantissa. -/
def scanAfterMantissa (l : List Char) : Bool × ℕ :=
  match l with
  | 'e' :: r => scanExpPart r
  | 'E' :: r => scanExpPart r
  | _ => (false, 0)

/-- Longest-prefix scan of an unsigned JavaScript decimal literal:
`digits [. digits] [exp]` or `. digits [exp]`. -/
def scanUnsigned (l : List Char) : Option FloatScan :=
  let ds := l.takeWhile isDig
  let r1 := l.dropWhile isDig
  if ds.isEmpty then
    match r1 with
    | '.' :: r2 =>
      let fs := r2.takeWhile isDig
      let r3 := r2.dropWhile isDig
      if fs.isEmpty then none
      else
        let e := scanAfterMantissa r3
        some ⟨false, 0, digitsToNat fs, fs.length, e.1, e.2⟩
    | _ => none
  else
    match r1 with
    | '.' :: r2 =>
      let fs := r2.takeWhile isDig
      let r3 := r2.dropWhile isDig
      let e := scanAfterMantissa r3
      some ⟨false, digitsToNat ds, digitsToNat fs, fs.length, e.1, e.2⟩
    | _ =>
      let e := scanAfterMantissa r1
      some ⟨false, digitsToNat ds, 0, 0, e.1, e.2⟩

/-- Optional sign in front of the unsigned literal. -/
def scanSigned (l : List Char) : Option FloatScan :=
  match l with
  | '+' :: r => scanUnsigned r
  | '-' :: r => (scanUnsigned r).map (fun f => { f with neg := true })
  | _ => scanUnsigned l

/-- Model of the JavaScript builtin `parseFloat` on strings: skip surrounding
whitespace, scan the longest numeric prefix and take its value; `none`
stands for `NaN`. -/
def jsParseFloat (s : String) : Option ℚ :=
  (scanSigned (trimL s.data)).map FloatScan.toRat

/-- The JavaScript idiom `parseFloat(x) || d`: both `NaN` (here `none`) and
`0` are falsy and fall back to the default. -/
def orElseNum (d : ℚ) (o : Option ℚ) : ℚ :=
  match o with
  | none => d
  | some v => if v = 0 then d else v

/-- Lowercase a string characterwise; model of
`String.prototype.toLowerCase` (the two agree on ASCII data). -/
def jsToLower (s : String) : String :=
  ⟨s.data.map Char.toLower⟩

/- === Embedding of src/js/utils/units.js === -/

/-- The synonym table `unitMap` from `src/js/utils/units.js`, as an
association list in source order. -/
def unitMap : List (String × String) :=
  [("tsp", "tsp"), ("teaspoon", "tsp"), ("teaspoons", "tsp"),
   ("tbsp", "tbsp"), ("tablespoon", "tbsp"), ("tablespoons", "tbsp"),
   ("cup", "cup"), ("cups", "cup"), ("c", "cup"),
   ("fl oz", "fl oz"), ("fluid ounce", "fl oz"), ("fluid ounces", "fl oz"),
   ("pt", "pt"), ("pint", "pt"), ("pints", "pt"),
   ("qt", "qt"), ("quart", "qt"), ("quarts", "qt"),
   ("gal", "gal"), ("gallon", "gal"), ("gallons", "gal"),
   ("ml", "ml"), ("milliliter", "ml"), ("milliliters", "ml"),
   ("l", "l"), ("liter", "l"), ("liters", "l"),
   ("oz", "oz"), ("ounce", "oz"), ("ounces", "oz"),
   ("lb", "lb"), ("lbs", "lb"), ("pound", "lb"), ("pounds", "lb"),
   ("g", "g"), ("gram", "g"), ("grams", "g"),
   ("kg", "kg"), ("kilogram", "kg"), ("kilograms", "kg"),
   ("piece", "piece"), ("pieces", "piece"), ("whole", "whole"),
   ("count", "count"), ("each", "each"),
   ("clove", "clove"), ("cloves", "clove"),
   ("can", "can"), ("cans", "can"),
   ("package", "package"), ("packages", "package"),
   ("bunch", "bunch"), ("bunches", "bunch")]

/-- Property lookup `unitMap[key]` on the table. -/
def lookupUnit (u : String) : Option String :=
  (unitMap.find? (fun p => p.1 = u)).map (fun p => p.2)

/-- `normalizeUnit` from `src/js/utils/units.js`:
`if (!unit) return ''; const normalized = unit.toLowerCase().trim();
return unitMap[normalized] || normalized;` (every table value is a non-empty
string, so `||` only falls through when the key is absent). -/
def normalizeUnit (unit : String) : String :=
  if unit = "" then ""
  else
    let normalized := trimStr (jsToLower unit)
    (lookupUnit normalized).getD normalized

/-- `normalizeItemName` from `src/js/utils/units.js`:
`item.toLowerCase().trim()`. -/
def normalizeItemName (item : String) : String :=
  trimStr (jsToLower item)

/-- The dynamically typed argument of `parseQuantity`: a JavaScript number or
a string. -/
inductive QuantityInput where
  | num (q : ℚ)
  | str (s : String)

/-- The regex `^(\d+)\s+(\d+)\/(\d+)$` of `parseQuantity` (mixed numbers such
as `"1 1/2"`).  Maximal-munch scanning is equivalent to the anchored greedy
regex because the digit and whitespace classes are disjoint and neither
contains `'/'`. -/
def matchMixed (l : List Char) : Option (ℕ × ℕ × ℕ) :=
  let w := l.takeWhile isDig
  let r1 := l.dropWhile isDig
  if w.isEmpty then none
  else
    let sp := r1.takeWhile isWs
    let r2 := r1.dropWhile isWs
    if sp.isEmpty then none
    else
      let n := r2.takeWhile isDig
      let r3 := r2.dropWhile isDig
      if n.isEmpty then none
      else
        match r3 with
        | '/' :: r4 =>
          let d := r4.takeWhile isDig
          let r5 := r4.dropWhile isDig
          if d.isEmpty then none
          else if r5.isEmpty then some (digitsToNat w, digitsToNat n, digitsToNat d)
          else none
        | _ => none

/-- The regex `^(\d+)\/(\d+)$` of `parseQuantity` (simple fractions such as
`"3/4"`). -/
def matchFrac (l : List Char) : Option (ℕ × ℕ) :=
  let n := l.takeWhile isDig
  let r1 := l.dropWhile isDig
  if n.isEmpty then none
  else
    match r1 with
    | '/' :: r2 =>
      let d := r2.takeWhile isDig
      let r3 := r2.dropWhile isDig
      if d.isEmpty then none
      else if r3.isEmpty then some (digitsToNat n, digitsToNat d)
      else none
    | _ => none

/-- Body of `parseQuantity` after `.toString().trim()`: mixed number first,
then simple fraction, then `parseFloat(str) || 0`.  (The quotients are over
`ℚ`; a zero denominator, which JavaScript would turn into `Infinity`/`NaN`,
is outside the model and excluded by hypothesis where it matters.) -/
def parseQuantityCore (l : List Char) : ℚ :=
  match matchMixed l with
  | some (w, n, d) => (w : ℚ) + (n : ℚ) / (d : ℚ)
  | none =>
    match matchFrac l with
    | some (n, d) => (n : ℚ) / (d : ℚ)
    | none => orElseNum 0 ((scanSigned l).map FloatScan.toRat)

/-- `parseQuantity` from `src/js/utils/units.js`: a number is returned
directly; a falsy string (only `""`) yields 0; otherwise the trimmed text is
matched against the three shapes. -/
def parseQuantity : QuantityInput → ℚ
  | .num q => q
  | .str s => if s = "" then 0 else parseQuantityCore (trimL s.data)

/-- `Math.round(q * 100) / 100` and `toFixed(2)`: rounding to two decimals.
`Math.round` rounds half toward positive infinity, which is Mathlib's
`round` on `ℚ`. -/
def round2 (q : ℚ) : ℚ :=
  ((round (q * 100) : ℤ) : ℚ) / 100

/- === Embedding of src/js/store.js === -/

/-- A row of the Recipes sheet (the fields `generateShoppingList` reads). -/
structure Recipe where
  id : String
  name : String
  servings : String
deriving DecidableEq, Repr

/-- A row of the Ingredients sheet. -/
structure Ingredient where
  recipe_id : String
  item : String
  quantity : String
  unit : String
  category : String
deriving DecidableEq, Repr

/-- A row of the Inventory sheet. -/
structure InventoryItem where
  item : String
  status : String
  category : String
  typical_price : String
deriving DecidableEq, Repr

/-- A row of the MealPlan sheet. -/
structure MealPlanEntry where
  week_start : String
  day : String
  recipe_id : String
deriving DecidableEq, Repr

/-- The estimated-price field of a generated shopping-list row: the empty
string, the string `"NaN"` (an unparseable non-empty typical price), or a
numeric value (`(...).toFixed(2)`). -/
inductive EstPrice where
  | empty
  | nan
  | val (q : ℚ)
deriving DecidableEq, Repr

/-- A row of the ShoppingList sheet / an element of the generated list. -/
structure ShoppingListItem where
  week_start : String
  item : String
  quantity : ℚ
  unit : String
  category : String
  estimated_price : EstPrice
  checked : String
  manual : String
deriving DecidableEq, Repr

/-- The in-memory `Store` singleton's collections (the sheets snapshot). -/
structure StoreState where
  recipes : List Recipe
  ingredients : List Ingredient
  inventory : List InventoryItem
  mealPlan : List MealPlanEntry
  shoppingList : List ShoppingListItem
deriving Repr

/-- `getRecipe(id)`: `this.recipes.find(r => r.id === id)`. -/
def getRecipe (s : StoreState) (id : String) : Option Recipe :=
  s.recipes.find? (fun r => r.id = id)

/-- `getRecipeIngredients(recipeId)`:
`this.ingredients.filter(i => i.recipe_id === recipeId)`. -/
def getRecipeIngredients (s : StoreState) (recipeId : String) : List Ingredient :=
  s.ingredients.filter (fun i => i.recipe_id = recipeId)

/-- `getInventoryItem(item)`:
`this.inventory.find(i => i.item.toLowerCase() === item.toLowerCase())`. -/
def getInventoryItem (s : StoreState) (item : String) : Option InventoryItem :=
  s.inventory.find? (fun i => jsToLower i.item = jsToLower item)

/-- `getMealPlanForWeek(weekStart)`:
`this.mealPlan.filter(m => m.week_start === weekStart)`. -/
def getMealPlanForWeek (s : StoreState) (weekStart : String) : List MealPlanEntry :=
  s.mealPlan.filter (fun m => m.week_start = weekStart)

/-- `const servings = parseFloat(recipe.servings) || 4`. -/
def servingsOf (r : Recipe) : ℚ :=
  orElseNum 4 (jsParseFloat r.servings)

/-- `const multiplier = 2.5 / servings`. -/
def multiplierOf (r : Recipe) : ℚ :=
  (2.5 : ℚ) / servingsOf r

/-- `const quantity = parseFloat(ingredient.quantity) || 0;
const scaledQuantity = quantity * multiplier`. -/
def scaledQty (mult : ℚ) (ing : Ingredient) : ℚ :=
  orElseNum 0 (jsParseFloat ing.quantity) * mult

/-- One value of the `aggregated` object (`{item, quantity, unit, category}`). -/
structure AggLine where
  item : String
  quantity : ℚ
  unit : String
  category : String
deriving DecidableEq, Repr

/-- Property lookup on the insertion-ordered `aggregated` object. -/
def lookupA (k : String) : List (String × AggLine) → Option AggLine
  | [] => none
  | (k', v) :: t => if k' = k then some v else lookupA k t

/-- `aggregated[item].quantity += scaledQuantity` as a map over the object. -/
def bump (k : String) (q : ℚ) (l : List (String × AggLine)) : List (String × AggLine) :=
  l.map (fun p => if p.1 = k then (p.1, { p.2 with quantity := p.2.quantity + q }) else p)

/-- The body of the inner `for (const ingredient of ingredients)` loop:
key by `ingredient.item.toLowerCase()`, seed a missing entry with quantity 0
and the ingredient's display name/unit/category, then add the scaled
quantity. -/
def aggInsert (mult : ℚ) (acc : List (String × AggLine)) (ing : Ingredient) :
    List (String × AggLine) :=
  let key := jsToLower ing.item
  let scaled := scaledQty mult ing
  let acc' :=
    match lookupA key acc with
    | some _ => acc
    | none => acc ++ [(key, ⟨ing.item, 0, ing.unit, ing.category⟩)]
  bump key scaled acc'

/-- The body of the outer `for (const meal of weekMeals)` loop: skip a meal
whose recipe does not resolve, otherwise fold its ingredient list. -/
def processMeal (s : StoreState) (acc : List (String × AggLine)) (meal : MealPlanEntry) :
    List (String × AggLine) :=
  match getRecipe s meal.recipe_id with
  | none => acc
  | some r => (getRecipeIngredients s meal.recipe_id).foldl (aggInsert (multiplierOf r)) acc

/-- The aggregation phase of `generateShoppingList` over a week's meals. -/
def aggregateWeek (s : StoreState) (meals : List MealPlanEntry) : List (String × AggLine) :=
  meals.foldl (processMeal s) []

/-- `!inventoryItem || inventoryItem.status === 'low' || inventoryItem.status === 'out'`. -/
def includedB (s : StoreState) (line : AggLine) : Bool :=
  match getInventoryItem s line.item with
  | none => true
  | some inv => inv.status = "low" || inv.status = "out"

/-- Construction of one pushed shopping item:
`typical_price = inventoryItem?.typical_price || ''`, the estimate
`typical_price ? (parseFloat(typical_price) * item.quantity).toFixed(2) : ''`,
quantity rounded to two decimals, `checked`/`manual` set to `'FALSE'`. -/
def buildItem (s : StoreState) (weekStart : String) (line : AggLine) : ShoppingListItem :=
  let tp := ((getInventoryItem s line.item).map (fun i => i.typical_price)).getD ""
  { week_start := weekStart
    item := line.item
    quantity := round2 line.quantity
    unit := line.unit
    category := line.category
    estimated_price :=
      if tp = "" then .empty
      else
        match jsParseFloat tp with
        | none => .nan
        | some v => .val (round2 (v * line.quantity))
    checked := "FALSE"
    manual := "FALSE" }

/-- The filtering phase: keep an aggregated line only when it is not in
inventory or its status is `'low'`/`'out'`, and build the pushed row. -/
def filterAndPrice (s : StoreState) (weekStart : String) (lines : List AggLine) :
    List ShoppingListItem :=
  lines.filterMap (fun line =>
    if includedB s line then some (buildItem s weekStart line) else none)

/-- `generateShoppingList(weekStart)` from `src/js/store.js`.  The result is
the pair (returned `shoppingItems`, `newList` written back to the
ShoppingList sheet); the `throw` is an `Except.error`. -/
def generateShoppingList (s : StoreState) (weekStart : String) :
    Except String (List ShoppingListItem × List ShoppingListItem) :=
  let weekMeals := getMealPlanForWeek s weekStart
  if weekMeals.isEmpty then
    .error "No meals planned for this week"
  else
    let aggregated := aggregateWeek s weekMeals
    let shoppingItems := filterAndPrice s weekStart (aggregated.map Prod.snd)
    let otherWeeks := s.shoppingList.filter (fun it => it.week_start ≠ weekStart)
    .ok (shoppingItems, otherWeeks ++ shoppingItems)

/- === Embedding of the budget summary in src/js/views/planner.js === -/

/-- A row of the PriceHistory sheet; `date` is a day index (`none` models a
row whose date cell is empty, which `new Date` would not order). -/
structure PriceEntry where
  date : Option ℤ
  item : String
  price : String
deriving DecidableEq, Repr

/-- The week-window test of `BudgetView.render`:
`priceDate >= weekStart && priceDate < weekEnd` with
`weekEnd = weekStart + 7 days`; a row with `!p.date` is dropped. -/
def inLastWeek (weekStart : ℤ) (p : PriceEntry) : Bool :=
  match p.date with
  | none => false
  | some d => decide (weekStart ≤ d) && decide (d < weekStart + 7)

/-- The actual-spend accumulation of `BudgetView.render`: filter the price
history to the week window, then add `parseFloat(p.price)` for each entry
with a truthy (non-empty) price string.  An unparseable price, `NaN` in
JavaScript, is modelled as adding 0. -/
def actualTotalForWeek (priceHistory : List PriceEntry) (weekStart : ℤ) : ℚ :=
  let lastWeekPrices := priceHistory.filter (inLastWeek weekStart)
  lastWeekPrices.foldl
    (fun acc p => if p.price ≠ "" then acc + (jsParseFloat p.price).getD 0 else acc) 0

/- === Helper definitions and lemmas about the aggregation loop === -/

/-- One aggregation step, uncurried over a (multiplier, ingredient) pair. -/
def stepP (acc : List (String × AggLine)) (p : ℚ × Ingredient) : List (String × AggLine) :=
  aggInsert p.1 acc p.2

/-- The week's resolved (multiplier, ingredient) pairs, in processing order. -/
def weekPairs (s : StoreState) : List MealPlanEntry → List (ℚ × Ingredient)
  | [] => []
  | meal :: rest =>
    (match getRecipe s meal.recipe_id with
     | none => []
     | some r => (getRecipeIngredients s meal.recipe_id).map (fun ing => (multiplierOf r, ing)))
      ++ weekPairs s rest

/-- The scaled contributions to aggregation key `k`, in processing order. -/
def contribsFor (k : String) (ps : List (ℚ × Ingredient)) : List ℚ :=
  ps.filterMap (fun p => if jsToLower p.2.item = k then some (scaledQty p.1 p.2) else none)

/-- The first ingredient occurrence that lands on aggregation key `k`. -/
def firstIngFor (k : String) (ps : List (ℚ × Ingredient)) : Option Ingredient :=
  (ps.find? (fun p => jsToLower p.2.item = k)).map (fun p => p.2)

theorem lookupA_append (k : String) (l₁ l₂ : List (String × AggLine)) :
    lookupA k (l₁ ++ l₂) =
      match lookupA k l₁ with
      | some v => some v
      | none => lookupA k l₂ := by
  induction l₁ with
  | nil => simp [lookupA]
  | cons p t ih =>
    obtain ⟨k', v⟩ := p
    by_cases h : k' = k <;> simp [lookupA, h, ih]

theorem bump_cons (k : String) (q : ℚ) (k' : String) (v : AggLine)
    (t : List (String × AggLine)) :
    bump k q ((k', v) :: t) =
      (if k' = k then (k', { v with quantity := v.quantity + q }) else (k', v)) :: bump k q t := by
  by_cases h : k' = k <;> simp [bump, h]

theorem lookupA_bump_self (k : String) (q : ℚ) (l : List (String × AggLine)) :
    lookupA k (bump k q l) =
      (lookupA k l).map (fun v => { v with quantity := v.quantity + q }) := by
  induction l with
  | nil => simp [lookupA, bump]
  | cons p t ih =>
    obtain ⟨k', v⟩ := p
    rw [bump_cons]
    by_cases h : k' = k
    · subst h
      rw [if_pos rfl]
      simp [lookupA]
    · rw [if_neg h]
      simp [lookupA, h, ih]

theorem lookupA_bump_ne (k k' : String) (q : ℚ) (l : List (String × AggLine))
    (h : k' ≠ k) : lookupA k' (bump k q l) = lookupA k' l := by
  induction l with
  | nil => simp [lookupA, bump]
  | cons p t ih =>
    obtain ⟨k₀, v⟩ := p
    rw [bump_cons]
    by_cases h₀ : k₀ = k
    · subst h₀
      rw [if_pos rfl]
      have hne : k₀ ≠ k' := fun he => h he.symm
      simp [lookupA, hne, ih]
    · rw [if_neg h₀]
      by_cases h₁ : k₀ = k' <;> simp [lookupA, h₀, h₁, ih]

theorem lookupA_eq_none_iff (k : String) (l : List (String × AggLine)) :
    lookupA k l = none ↔ k ∉ l.map Prod.fst := by
  induction l with
  | nil => simp [lookupA]
  | cons p t ih =>
    obtain ⟨k', v⟩ := p
    by_cases h : k' = k
    · subst h
      simp [lookupA]
    · have h' : ¬k = k' := fun he => h he.symm
      simp only [lookupA, if_neg h, List.map_cons, List.mem_cons, not_or]
      rw [ih]
      exact ⟨fun hn => ⟨h', hn⟩, fun hp => hp.2⟩

theorem keys_bump (k : String) (q : ℚ) (l : List (String × AggLine)) :
    (bump k q l).map Prod.fst = l.map Prod.fst := by
  induction l with
  | nil => simp [bump]
  | cons p t ih =>
    obtain ⟨k', v⟩ := p
    by_cases h : k' = k <;> simp [bump, h] <;> simpa [bump] using ih

theorem lookupA_of_mem_nodup (k : String) (v : AggLine) (l : List (String × AggLine))
    (hd : (l.map Prod.fst).Nodup) (hm : (k, v) ∈ l) : lookupA k l = some v := by
  induction l with
  | nil => simp at hm
  | cons p t ih =>
    obtain ⟨k', v'⟩ := p
    rw [List.map_cons, List.nodup_cons] at hd
    rcases List.mem_cons.mp hm with h | h
    · injection h with h1 h2
      subst h1
      subst h2
      simp [lookupA]
    · have hk : k' ≠ k := by
        intro he
        subst he
        exact hd.1 (List.mem_map.mpr ⟨(k', v), h, rfl⟩)
      simp [lookupA, hk, ih hd.2 h]

theorem lookupA_aggInsert_self (m : ℚ) (acc : List (String × AggLine)) (ing : Ingredient)
    (k : String) (h : jsToLower ing.item = k) :
    lookupA k (aggInsert m acc ing) =
      match lookupA k acc with
      | some v => some { v with quantity := v.quantity + scaledQty m ing }
      | none => some ⟨ing.item, 0 + scaledQty m ing, ing.unit, ing.category⟩ := by
  unfold aggInsert
  subst h
  cases hacc : lookupA (jsToLower ing.item) acc with
  | some v => simp [hacc, lookupA_bump_self]
  | none =>
    simp only [hacc]
    rw [lookupA_bump_self, lookupA_append, hacc]
    simp [lookupA]

theorem lookupA_aggInsert_ne (m : ℚ) (acc : List (String × AggLine)) (ing : Ingredient)
    (k : String) (h : jsToLower ing.item ≠ k) :
    lookupA k (aggInsert m acc ing) = lookupA k acc := by
  unfold aggInsert
  have hne : k ≠ jsToLower ing.item := fun he => h he.symm
  cases hacc : lookupA (jsToLower ing.item) acc with
  | some v => simp [hacc, lookupA_bump_ne _ _ _ _ hne]
  | none =>
    simp only [hacc]
    rw [lookupA_bump_ne _ _ _ _ hne, lookupA_append]
    cases hk : lookupA k acc <;> simp [lookupA, h]

theorem foldl_stepP_lookup (ps : List (ℚ × Ingredient)) :
    ∀ (acc : List (String × AggLine)) (k : String),
    lookupA k (ps.foldl stepP acc) =
      match lookupA k acc with
      | some v => some { v with quantity := v.quantity + (contribsFor k ps).sum }
      | none =>
        (firstIngFor k ps).map
          (fun ing => ⟨ing.item, (contribsFor k ps).sum, ing.unit, ing.category⟩) := by
  induction ps with
  | nil =>
    intro acc k
    cases h : lookupA k acc <;> simp [contribsFor, firstIngFor, h]
  | cons p rest ih =>
    intro acc k
    obtain ⟨m, ing⟩ := p
    rw [List.foldl_cons, ih]
    by_cases hk : jsToLower ing.item = k
    · have hstep : lookupA k (stepP acc (m, ing)) =
          match lookupA k acc with
          | some v => some { v with quantity := v.quantity + scaledQty m ing }
          | none => some ⟨ing.item, 0 + scaledQty m ing, ing.unit, ing.category⟩ :=
        lookupA_aggInsert_self m acc ing k hk
      have hc : contribsFor k ((m, ing) :: rest) = scaledQty m ing :: contribsFor k rest := by
        simp [contribsFor, hk]
      have hf : firstIngFor k ((m, ing) :: rest) = some ing := by
        simp [firstIngFor, List.find?_cons_of_pos, hk]
      rw [hstep, hc, hf]
      cases hacc : lookupA k acc with
      | some v => simp [add_assoc]
      | none => simp [add_assoc]
    · have hstep : lookupA k (stepP acc (m, ing)) = lookupA k acc :=
        lookupA_aggInsert_ne m acc ing k hk
      have hc : contribsFor k ((m, ing) :: rest) = contribsFor k rest := by
        simp [contribsFor, hk]
      have hf : firstIngFor k ((m, ing) :: rest) = firstIngFor k rest := by
        simp [firstIngFor, List.find?_cons_of_neg, hk]
      rw [hstep, hc, hf]

theorem aggregateWeek_eq_foldl (s : StoreState) (meals : List MealPlanEntry) :
    ∀ acc, meals.foldl (processMeal s) acc = (weekPairs s meals).foldl stepP acc := by
  induction meals with
  | nil => intro acc; simp [weekPairs]
  | cons meal rest ih =>
    intro acc
    rw [List.foldl_cons, ih]
    show (weekPairs s rest).foldl stepP (processMeal s acc meal) =
      ((match getRecipe s meal.recipe_id with
        | none => []
        | some r =>
          (getRecipeIngredients s meal.recipe_id).map (fun ing => (multiplierOf r, ing)))
        ++ weekPairs s rest).foldl stepP acc
    rw [List.foldl_append]
    cases hr : getRecipe s meal.recipe_id with
    | none => simp [processMeal, hr]
    | some r => simp [processMeal, hr, List.foldl_map, stepP]

/-- Master characterization of the aggregation phase: the entry of the
`aggregated` object at key `k` exists iff some resolved occurrence lands on
`k`; it carries the first such occurrence's display name, unit and category,
and the sum of all scaled contributions to `k`. -/
theorem agg_lookup (s : StoreState) (meals : List MealPlanEntry) (k : String) :
    lookupA k (aggregateWeek s meals) =
      (firstIngFor k (weekPairs s meals)).map
        (fun ing => ⟨ing.item, (contribsFor k (weekPairs s meals)).sum, ing.unit, ing.category⟩) := by
  unfold aggregateWeek
  rw [aggregateWeek_eq_foldl, foldl_stepP_lookup]
  rfl

theorem keys_aggInsert_nodup (m : ℚ) (acc : List (String × AggLine)) (ing : Ingredient)
    (h : (acc.map Prod.fst).Nodup) : ((aggInsert m acc ing).map Prod.fst).Nodup := by
  unfold aggInsert
  cases hacc : lookupA (jsToLower ing.item) acc with
  | some v =>
    simp only [hacc]
    simpa [keys_bump] using h
  | none =>
    have hk : jsToLower ing.item ∉ acc.map Prod.fst := (lookupA_eq_none_iff _ _).mp hacc
    simp only [hacc]
    simp [keys_bump, List.nodup_append, h, hk]

theorem keys_agg_nodup (s : StoreState) (meals : List MealPlanEntry) :
    ((aggregateWeek s meals).map Prod.fst).Nodup := by
  unfold aggregateWeek
  rw [aggregateWeek_eq_foldl]
  have : ∀ (ps : List (ℚ × Ingredient)) (acc : List (String × AggLine)),
      (acc.map Prod.fst).Nodup → ((ps.foldl stepP acc).map Prod.fst).Nodup := by
    intro ps
    induction ps with
    | nil => intro acc h; simpa using h
    | cons p rest ih =>
      intro acc h
      rw [List.foldl_cons]
      exact ih _ (keys_aggInsert_nodup p.1 acc p.2 h)
  exact this _ [] (by simp)

/-- Every line of the aggregated values list is the lookup result at its own
key, hence of the shape described by `agg_lookup`. -/
theorem mem_agg_line (s : StoreState) (meals : List MealPlanEntry) (line : AggLine)
    (h : line ∈ (aggregateWeek s meals).map Prod.snd) :
    ∃ ing, firstIngFor (jsToLower ing.item) (weekPairs s meals) = some ing ∧
      line = ⟨ing.item, (contribsFor (jsToLower ing.item) (weekPairs s meals)).sum,
               ing.unit, ing.category⟩ := by
  obtain ⟨⟨k, v⟩, hmem, hv⟩ := List.mem_map.mp h
  have hl : lookupA k (aggregateWeek s meals) = some v :=
    lookupA_of_mem_nodup k v _ (keys_agg_nodup s meals) hmem
  rw [agg_lookup] at hl
  cases hf : firstIngFor k (weekPairs s meals) with
  | none => rw [hf] at hl; simp at hl
  | some ing =>
    rw [hf] at hl
    simp only [Option.map_some'] at hl
    injection hl with hl
    have hkey : jsToLower ing.item = k := by
      unfold firstIngFor at hf
      obtain ⟨p, hp, hp2⟩ := Option.map_eq_some'.mp hf
      rw [← hp2]
      have hpred := List.find?_some
        (p := fun q : ℚ × Ingredient => decide (jsToLower q.2.item = k)) hp
      exact of_decide_eq_true hpred
    refine ⟨ing, ?_, ?_⟩
    · rw [hkey, hf]
    · rw [hkey]
      rw [← hv, ← hl]

/- === General-purpose helper lemmas === -/

theorem jsParseFloat_eval (s : String) (f : FloatScan)
    (h : scanSigned (trimL s.data) = some f) : jsParseFloat s = some f.toRat := by
  simp [jsParseFloat, h]

theorem jsParseFloat_eval_none (s : String)
    (h : scanSigned (trimL s.data) = none) : jsParseFloat s = none := by
  simp [jsParseFloat, h]

theorem orElseNum_some (d v : ℚ) (h : v ≠ 0) : orElseNum d (some v) = v := by
  simp [orElseNum, h]

theorem orElseNum_zero_some (v : ℚ) : orElseNum 0 (some v) = v := by
  by_cases h : v = 0 <;> simp [orElseNum, h]

theorem mem_filterAndPrice (s : StoreState) (w : String) (lines : List AggLine)
    (it : ShoppingListItem) :
    it ∈ filterAndPrice s w lines ↔
      ∃ line ∈ lines, includedB s line = true ∧ it = buildItem s w line := by
  simp only [filterAndPrice, List.mem_filterMap]
  constructor
  · rintro ⟨line, hm, hf⟩
    by_cases hb : includedB s line
    · rw [if_pos hb] at hf
      injection hf with hf
      exact ⟨line, hm, hb, hf.symm⟩
    · rw [if_neg hb] at hf
      exact absurd hf (by simp)
  · rintro ⟨line, hm, hb, rfl⟩
    exact ⟨line, hm, by rw [if_pos hb]⟩

theorem filterAndPrice_fields (s : StoreState) (w : String) (lines : List AggLine)
    (it : ShoppingListItem) (h : it ∈ filterAndPrice s w lines) :
    it.week_start = w ∧ it.checked = "FALSE" ∧ it.manual = "FALSE" := by
  obtain ⟨line, _, _, rfl⟩ := (mem_filterAndPrice s w lines it).mp h
  exact ⟨rfl, rfl, rfl⟩

theorem weekPairs_mem (s : StoreState) (meals : List MealPlanEntry) (m : ℚ)
    (ing : Ingredient) (h : (m, ing) ∈ weekPairs s meals) :
    (∃ r ∈ s.recipes, m = multiplierOf r) ∧ ing ∈ s.ingredients := by
  induction meals with
  | nil => simp [weekPairs] at h
  | cons meal rest ih =>
    rw [weekPairs, List.mem_append] at h
    rcases h with h | h
    · cases hr : getRecipe s meal.recipe_id with
      | none => rw [hr] at h; simp at h
      | some r =>
        rw [hr] at h
        obtain ⟨ing', hing', heq⟩ := List.mem_map.mp h
        injection heq with h1 h2
        subst h1
        subst h2
        refine ⟨⟨r, List.mem_of_find?_eq_some hr, rfl⟩, ?_⟩
        exact List.mem_of_mem_filter hing'
    · exact ih h

theorem round2_nonneg (q : ℚ) (h : 0 ≤ q) : 0 ≤ round2 q := by
  unfold round2
  have h1 : (0 : ℤ) ≤ round (q * 100) := by
    rw [round_eq]
    have : (0 : ℚ) ≤ q * 100 + 1 / 2 := by positivity
    exact Int.le_floor.mpr (by exact_mod_cast this)
  have h2 : (0 : ℚ) ≤ ((round (q * 100) : ℤ) : ℚ) := by exact_mod_cast h1
  positivity

theorem servingsOf_ne_zero (r : Recipe) : servingsOf r ≠ 0 := by
  unfold servingsOf orElseNum
  cases jsParseFloat r.servings with
  | none => norm_num
  | some v =>
    show (if v = 0 then (4 : ℚ) else v) ≠ 0
    by_cases h : v = 0
    · rw [if_pos h]; norm_num
    · rw [if_neg h]; exact h

/- === Character-class and scanning lemmas (for the parseQuantity shapes) === -/

theorem isDig_ne (c c' : Char) (h : isDig c = true) (h' : isDig c' = false) : c ≠ c' := by
  intro he
  subst he
  rw [h] at h'
  cases h'

theorem not_isWs_of_isDig (c : Char) (h : isDig c = true) : isWs c = false := by
  cases hw : isWs c with
  | false => rfl
  | true =>
    have hc : c = ' ' ∨ c = '\t' ∨ c = '\n' ∨ c = '\r' ∨ c = '\x0b' ∨ c = '\x0c' := by
      simpa [isWs, or_assoc] using hw
    rcases hc with rfl | rfl | rfl | rfl | rfl | rfl <;> exact absurd h (by decide)

theorem mem_getLast?_list (l : List Char) (c : Char) (h : l.getLast? = some c) : c ∈ l := by
  obtain ⟨hne, rfl⟩ := List.mem_getLast?_eq_getLast h
  exact List.getLast_mem hne

theorem dropWhile_eq_self_of_head (p : Char → Bool) (l : List Char)
    (h : ∀ c, l.head? = some c → p c = false) : l.dropWhile p = l := by
  cases l with
  | nil => rfl
  | cons c t => simp [List.dropWhile_cons, h c rfl]

theorem trimL_eq_self (l : List Char)
    (h1 : ∀ c, l.head? = some c → isWs c = false)
    (h2 : ∀ c, l.getLast? = some c → isWs c = false) : trimL l = l := by
  unfold trimL
  rw [dropWhile_eq_self_of_head _ _ h1]
  rw [dropWhile_eq_self_of_head, List.reverse_reverse]
  intro c hc
  rw [List.head?_reverse] at hc
  exact h2 c hc

theorem takeWhile_append_all (p : Char → Bool) (r : List Char)
    (hr : ∀ c, r.head? = some c → p c = false) :
    ∀ l, (∀ c ∈ l, p c = true) →
      (l ++ r).takeWhile p = l ∧ (l ++ r).dropWhile p = r := by
  intro l
  induction l with
  | nil =>
    intro _
    constructor <;> [skip; skip] <;>
      (first
        | (cases r with
           | nil => simp
           | cons c t => simp [List.takeWhile_cons, List.dropWhile_cons, hr c rfl]))
  | cons c t ih =>
    intro hl
    have hc := hl c (by simp)
    obtain ⟨h1, h2⟩ := ih (fun x hx => hl x (by simp [hx]))
    simp only [List.cons_append, List.takeWhile_cons, List.dropWhile_cons, hc]
    simp [h1, h2]

theorem mk_ne_empty (l : List Char) (h : l ≠ []) : (⟨l⟩ : String) ≠ "" := by
  intro he
  apply h
  have := congrArg String.data he
  simpa using this

/- === Claim C9 === -/

/-- Written from the spec's words (section 4.1): lowercase, trim, map known
synonyms via the static table; unknown strings pass through unchanged. -/
def specNormalizeUnit (unit : String) : String :=
  let normalized := trimStr (jsToLower unit)
  match lookupUnit normalized with
  | some canonical => canonical
  | none => normalized

/-- Claim C9: for every input string, `normalizeUnit` lowercases, trims, and
maps known synonyms to their canonical token via the static synonym table;
any string whose normalized form is not in the table passes through
(in normalized form) unchanged, and no input produces an error (the function
is total).  Shown by proving the source function extensionally equal to the
spec-worded function, plus concrete synonym and pass-through cases. -/
theorem c9_normalizeUnit_follows_table :
    (∀ u : String, normalizeUnit u = specNormalizeUnit u) ∧
    normalizeUnit "Tablespoons" = "tbsp" ∧
    normalizeUnit " TBSP " = "tbsp" ∧
    normalizeUnit "c" = "cup" ∧
    normalizeUnit "splash" = "splash" ∧
    normalizeUnit " Fresh Basil " = "fresh basil" := by
  refine ⟨?_, by decide, by decide, by decide, by decide, by decide⟩
  intro u
  by_cases h : u = ""
  · subst h
    decide
  · rw [normalizeUnit, if_neg h]
    cases hl : lookupUnit (trimStr (jsToLower u)) <;>
      simp [specNormalizeUnit, hl]

/- === Claim C10 === -/

/-- The amount one price-history row contributes to the accumulated total:
0 for a falsy price string, otherwise its parsed value. -/
def priceValOf (p : PriceEntry) : ℚ :=
  if p.price = "" then 0 else (jsParseFloat p.price).getD 0

/-- Written from the spec's words (section 4.4): sum the prices of the
entries whose date falls within the half-open window
`[weekStart, weekStart + 7)`. -/
def specActualTotalForWeek (priceHistory : List PriceEntry) (weekStart : ℤ) : ℚ :=
  ((priceHistory.filter (fun p =>
      match p.date with
      | none => false
      | some d => decide (weekStart ≤ d ∧ d < weekStart + 7))).map priceValOf).sum

theorem foldl_price_acc (l : List PriceEntry) :
    ∀ a : ℚ,
      l.foldl (fun acc p => if p.price ≠ "" then acc + (jsParseFloat p.price).getD 0 else acc) a =
        a + (l.map priceValOf).sum := by
  induction l with
  | nil => intro a; simp
  | cons p t ih =>
    intro a
    rw [List.foldl_cons, ih]
    by_cases hp : p.price = ""
    · simp [hp, priceValOf]
    · simp [hp, priceValOf]
      ring

/-- Claim C10: the actual-spend total for a week sums exactly the
price-history entries whose date lies in `[weekStart, weekStart + 7)`: the
source computation equals the spec-worded windowed sum, an entry dated on the
week-start day is counted, and an entry dated exactly 7 days later is not. -/
theorem c10_actual_total_window :
    (∀ (hist : List PriceEntry) (ws : ℤ),
       actualTotalForWeek hist ws = specActualTotalForWeek hist ws) ∧
    (∀ (ws : ℤ) (it pr : String),
       actualTotalForWeek [⟨some ws, it, pr⟩] ws = priceValOf ⟨some ws, it, pr⟩) ∧
    (∀ (ws : ℤ) (it pr : String),
       actualTotalForWeek [⟨some (ws + 7), it, pr⟩] ws = 0) := by
  refine ⟨?_, ?_, ?_⟩
  · intro hist ws
    unfold actualTotalForWeek specActualTotalForWeek
    rw [foldl_price_acc, zero_add]
    have hfe : hist.filter (inLastWeek ws) =
        hist.filter (fun p =>
          match p.date with
          | none => false
          | some d => decide (ws ≤ d ∧ d < ws + 7)) := by
      apply List.filter_congr
      intro p _
      unfold inLastWeek
      cases p.date with
      | none => rfl
      | some d => simp [Bool.decide_and]
    rw [hfe]
  · intro ws it pr
    have h2 : ws < ws + 7 := by omega
    have hc : inLastWeek ws ⟨some ws, it, pr⟩ = true := by
      simp [inLastWeek, h2]
    unfold actualTotalForWeek
    simp only [List.filter_cons, hc, if_true, List.filter_nil]
    by_cases hp : pr = "" <;> simp [hp, priceValOf]
  · intro ws it pr
    have h2 : ¬(ws + 7 < ws + 7) := by omega
    have hc : inLastWeek ws ⟨some (ws + 7), it, pr⟩ = false := by
      simp [inLastWeek, h2]
    unfold actualTotalForWeek
    simp [hc, List.filter_cons]

/- === Claim C6 === -/

theorem generate_ok_elim (s : StoreState) (w : String)
    (items newList : List ShoppingListItem)
    (h : generateShoppingList s w = .ok (items, newList)) :
    getMealPlanForWeek s w ≠ [] ∧
    items = filterAndPrice s w ((aggregateWeek s (getMealPlanForWeek s w)).map Prod.snd) ∧
    newList = s.shoppingList.filter (fun it => it.week_start ≠ w) ++ items := by
  simp only [generateShoppingList] at h
  by_cases he : (getMealPlanForWeek s w).isEmpty
  · rw [if_pos he] at h
    exact absurd h (by simp)
  · rw [if_neg he] at h
    simp only [Except.ok.injEq, Prod.mk.injEq] at h
    obtain ⟨h1, h2⟩ := h
    refine ⟨?_, h1.symm, ?_⟩
    · intro hnil
      exact he (by simp [hnil])
    · rw [← h2, h1]

/-- Claim C6: regenerating a week's shopping list removes every previously
stored row for that week — rows with `manual = 'TRUE'` included — and the
rows stored for that week afterwards are exactly the freshly generated ones,
while rows of every other week are left unchanged. -/
theorem c6_regenerate_replaces_whole_week (s : StoreState) (w : String)
    (items newList : List ShoppingListItem)
    (h : generateShoppingList s w = .ok (items, newList)) :
    newList.filter (fun it => it.week_start ≠ w) =
      s.shoppingList.filter (fun it => it.week_start ≠ w) ∧
    newList.filter (fun it => it.week_start = w) = items ∧
    (∀ it ∈ s.shoppingList, it.week_start = w → it.manual = "TRUE" → it ∉ newList) := by
  obtain ⟨hne, hitems, hnew⟩ := generate_ok_elim s w items newList h
  have hweek : ∀ it ∈ items, it.week_start = w := by
    intro it hit
    exact (filterAndPrice_fields _ _ _ _ (hitems ▸ hit)).1
  subst hnew
  refine ⟨?_, ?_, ?_⟩
  · rw [List.filter_append]
    have h2 : items.filter (fun it => it.week_start ≠ w) = [] := by
      rw [List.filter_eq_nil_iff]
      intro it hit
      simp [hweek it hit]
    rw [h2, List.append_nil, List.filter_filter]
    apply List.filter_congr
    intro it _
    simp
  · rw [List.filter_append]
    have h1 : (s.shoppingList.filter (fun it => it.week_start ≠ w)).filter
        (fun it => it.week_start = w) = [] := by
      rw [List.filter_eq_nil_iff]
      intro it hit
      have hne' := (List.mem_filter.mp hit).2
      simp at hne' ⊢
      exact hne'
    have h2 : items.filter (fun it => it.week_start = w) = items := by
      rw [List.filter_eq_self]
      intro it hit
      simp [hweek it hit]
    rw [h1, h2, List.nil_append]
  · intro it hs hw hm hmem
    rcases List.mem_append.mp hmem with hin | hin
    · have hne' := (List.mem_filter.mp hin).2
      simp at hne'
      exact hne' hw
    · have hf := (filterAndPrice_fields _ _ _ it (hitems ▸ hin)).2.2
      rw [hf] at hm
      exact absurd hm (by decide)

/-- Concrete store for the C6 witness: one planned meal for week `w1`, a
stored manual row for `w1`, and a stored row for another week `w2`. -/
def c6St : StoreState :=
  { recipes := [⟨"r1", "Pasta", "4"⟩]
    ingredients := [⟨"r1", "pasta", "2", "lb", "pantry"⟩]
    inventory := []
    mealPlan := [⟨"w1", "monday", "r1"⟩]
    shoppingList := [⟨"w1", "old thing", 1, "x", "other", .empty, "FALSE", "TRUE"⟩,
                     ⟨"w2", "keep", 2, "y", "other", .empty, "FALSE", "FALSE"⟩] }

/-- The freshly generated rows of the C6 witness week. -/
def c6Items : List ShoppingListItem :=
  [⟨"w1", "pasta", 5/4, "lb", "pantry", .empty, "FALSE", "FALSE"⟩]

/-- What regeneration writes back for the C6 witness. -/
def c6NewList : List ShoppingListItem :=
  [⟨"w2", "keep", 2, "y", "other", .empty, "FALSE", "FALSE"⟩,
   ⟨"w1", "pasta", 5/4, "lb", "pantry", .empty, "FALSE", "FALSE"⟩]

theorem c6_generate_eval : generateShoppingList c6St "w1" = .ok (c6Items, c6NewList) := by
  have h4 : jsParseFloat "4" = some 4 := by
    rw [jsParseFloat_eval "4" ⟨false, 4, 0, 0, false, 0⟩ (by decide)]
    norm_num [FloatScan.toRat]
  have h2 : jsParseFloat "2" = some 2 := by
    rw [jsParseFloat_eval "2" ⟨false, 2, 0, 0, false, 0⟩ (by decide)]
    norm_num [FloatScan.toRat]
  have hlow : jsToLower "pasta" = "pasta" := by decide
  have hm : getMealPlanForWeek c6St "w1" = [⟨"w1", "monday", "r1"⟩] := by
    simp [getMealPlanForWeek, c6St]
  have hagg : aggregateWeek c6St [⟨"w1", "monday", "r1"⟩] =
      [("pasta", ⟨"pasta", 5/4, "lb", "pantry"⟩)] := by
    simp [aggregateWeek, processMeal, getRecipe, getRecipeIngredients, c6St, aggInsert,
      lookupA, bump, scaledQty, multiplierOf, servingsOf, orElseNum, h4, h2, hlow]
    norm_num
  have hinv : c6St.inventory = [] := rfl
  have hshop : c6St.shoppingList =
      [⟨"w1", "old thing", 1, "x", "other", .empty, "FALSE", "TRUE"⟩,
       ⟨"w2", "keep", 2, "y", "other", .empty, "FALSE", "FALSE"⟩] := rfl
  rw [generateShoppingList, hm, hagg]
  simp [filterAndPrice, includedB, getInventoryItem, hinv, hshop, buildItem, round2,
    c6Items, c6NewList]
  norm_num [round_eq]

/-- Witness for C6 at the concrete store `c6St`. -/
theorem c6_witness :
    c6NewList.filter (fun it => it.week_start ≠ "w1") =
      c6St.shoppingList.filter (fun it => it.week_start ≠ "w1") ∧
    c6NewList.filter (fun it => it.week_start = "w1") = c6Items ∧
    (∀ it ∈ c6St.shoppingList, it.week_start = "w1" → it.manual = "TRUE" →
      it ∉ c6NewList) :=
  c6_regenerate_replaces_whole_week c6St "w1" c6Items c6NewList c6_generate_eval

/- === Claim C5 === -/

/-- Claim C5: every produced shopping-list row starts with
`checked = 'FALSE'` and `manual = 'FALSE'`; if the matched (or absent)
inventory record's typical price is empty, the estimate is the empty marker
(and in particular is never the number 0); if the price field parses, the
estimate is `round2 (price * aggregatedQuantity)` with the unrounded
aggregated quantity. -/
theorem c5_pricing_and_flags (s : StoreState) (w : String) (lines : List AggLine)
    (it : ShoppingListItem) (h : it ∈ filterAndPrice s w lines) :
    it.checked = "FALSE" ∧ it.manual = "FALSE" ∧
    ∃ line ∈ lines, it = buildItem s w line ∧
      ((((getInventoryItem s line.item).map (fun i => i.typical_price)).getD "" = "") →
        it.estimated_price = EstPrice.empty) ∧
      ((((getInventoryItem s line.item).map (fun i => i.typical_price)).getD "" = "") →
        it.estimated_price ≠ EstPrice.val 0) ∧
      (∀ v : ℚ,
        jsParseFloat (((getInventoryItem s line.item).map
          (fun i => i.typical_price)).getD "") = some v →
        it.estimated_price = EstPrice.val (round2 (v * line.quantity))) := by
  obtain ⟨line, hm, hb, rfl⟩ := (mem_filterAndPrice s w lines it).mp h
  refine ⟨rfl, rfl, line, hm, rfl, ?_, ?_, ?_⟩
  · intro htp
    simp [buildItem, htp]
  · intro htp
    simp [buildItem, htp]
  · intro v hv
    by_cases htp :
        (((getInventoryItem s line.item).map (fun i => i.typical_price)).getD "") = ""
    · rw [htp] at hv
      rw [jsParseFloat_eval_none "" (by decide)] at hv
      cases hv
    · simp [buildItem, htp, hv]

/-- Concrete store for the C5 witness: milk is `low` in inventory with a
typical price of `3.50`. -/
def c5St : StoreState :=
  { recipes := [⟨"r1", "Cereal", "4"⟩]
    ingredients := [⟨"r1", "milk", "1", "cup", "dairy"⟩]
    inventory := [⟨"milk", "low", "dairy", "3.50"⟩]
    mealPlan := [⟨"w1", "monday", "r1"⟩]
    shoppingList := [] }

/-- The aggregated line the C5 witness prices. -/
def c5Lines : List AggLine :=
  [⟨"milk", 5/8, "cup", "dairy"⟩]

/-- The produced row of the C5 witness: quantity `round2 (5/8) = 0.63`,
estimate `round2 (3.5 * 5/8) = 2.19`. -/
def c5It : ShoppingListItem :=
  ⟨"w1", "milk", 63/100, "cup", "dairy", .val (219/100), "FALSE", "FALSE"⟩

theorem c5_membership_eval : c5It ∈ filterAndPrice c5St "w1" c5Lines := by
  have hp : jsParseFloat "3.50" = some (7/2) := by
    rw [jsParseFloat_eval "3.50" ⟨false, 3, 50, 2, false, 0⟩ (by decide)]
    norm_num [FloatScan.toRat]
  have hlow : jsToLower "milk" = "milk" := by decide
  simp [filterAndPrice, includedB, getInventoryItem, c5St, c5Lines, c5It, hlow,
    buildItem, hp, round2]
  norm_num [round_eq]

/-- Witness for C5 at the concrete store `c5St`. -/
theorem c5_witness :
    c5It.checked = "FALSE" ∧ c5It.manual = "FALSE" ∧
    ∃ line ∈ c5Lines, c5It = buildItem c5St "w1" line ∧
      ((((getInventoryItem c5St line.item).map (fun i => i.typical_price)).getD "" = "") →
        c5It.estimated_price = EstPrice.empty) ∧
      ((((getInventoryItem c5St line.item).map (fun i => i.typical_price)).getD "" = "") →
        c5It.estimated_price ≠ EstPrice.val 0) ∧
      (∀ v : ℚ,
        jsParseFloat (((getInventoryItem c5St line.item).map
          (fun i => i.typical_price)).getD "") = some v →
        c5It.estimated_price = EstPrice.val (round2 (v * line.quantity))) :=
  c5_pricing_and_flags c5St "w1" c5Lines c5It c5_membership_eval

/- === Claim C4 === -/

/-- Concrete store refuting C4: week `w1` has one meal-plan row, but its
recipe id resolves to nothing, so the week has zero resolvable assignments. -/
def c4St : StoreState :=
  { recipes := []
    ingredients := []
    inventory := []
    mealPlan := [⟨"w1", "monday", "ghost"⟩]
    shoppingList := [] }

/-- Counterexample to C4 as stated: a week whose only meal-plan row does not
resolve has zero resolvable meal assignments, yet generation succeeds with an
empty list instead of raising the no-meals error. -/
theorem c4_counterexample :
    generateShoppingList c4St "w1" = .ok ([], []) ∧
    getMealPlanForWeek c4St "w1" ≠ [] ∧
    (∀ m ∈ getMealPlanForWeek c4St "w1", getRecipe c4St m.recipe_id = none) := by
  have hm : getMealPlanForWeek c4St "w1" = [⟨"w1", "monday", "ghost"⟩] := by
    simp [getMealPlanForWeek, c4St]
  refine ⟨?_, by simp [hm], ?_⟩
  · rw [generateShoppingList, hm]
    simp [aggregateWeek, processMeal, getRecipe, c4St, filterAndPrice]
  · intro m hm'
    rw [hm] at hm'
    simp at hm'
    subst hm'
    simp [getRecipe, c4St]

/-- Claim C4 as amended: the no-meals error is raised exactly when the week
has zero meal-plan rows, resolvable or not; and a week that has rows but
whose every aggregated line is suppressed by the inventory filter succeeds
with an empty list. -/
theorem c4_amended_error_iff_no_rows :
    (∀ (s : StoreState) (w : String),
       generateShoppingList s w = .error "No meals planned for this week" ↔
         getMealPlanForWeek s w = []) ∧
    (∀ (s : StoreState) (w : String),
       getMealPlanForWeek s w ≠ [] →
       (∀ line ∈ (aggregateWeek s (getMealPlanForWeek s w)).map Prod.snd,
          includedB s line = false) →
       generateShoppingList s w =
         .ok ([], s.shoppingList.filter (fun it => it.week_start ≠ w))) := by
  constructor
  · intro s w
    rw [generateShoppingList]
    by_cases he : (getMealPlanForWeek s w).isEmpty
    · rw [if_pos he]
      simp [List.isEmpty_iff.mp he]
    · rw [if_neg he]
      constructor
      · intro h
        cases h
      · intro h
        exact absurd h (by simpa [List.isEmpty_iff] using he)
  · intro s w hne hall
    rw [generateShoppingList]
    rw [if_neg (by simpa [List.isEmpty_iff] using hne)]
    have hfp : filterAndPrice s w
        ((aggregateWeek s (getMealPlanForWeek s w)).map Prod.snd) = [] := by
      unfold filterAndPrice
      rw [List.filterMap_eq_nil_iff]
      intro line hl
      rw [if_neg]
      simp [hall line hl]
    simp only [hfp, List.append_nil]

/-- Concrete store with an empty week `w1`, for the C4 witness. -/
def c4eSt : StoreState :=
  { recipes := []
    ingredients := []
    inventory := []
    mealPlan := []
    shoppingList := [] }

/-- Concrete store whose planned week needs only an item already stocked as
`have`, for the C4 witness. -/
def c4hSt : StoreState :=
  { recipes := [⟨"r1", "Cereal", "4"⟩]
    ingredients := [⟨"r1", "milk", "1", "cup", "dairy"⟩]
    inventory := [⟨"milk", "have", "dairy", ""⟩]
    mealPlan := [⟨"w1", "monday", "r1"⟩]
    shoppingList := [] }

/-- Witness for the amended C4: an empty week raises the error; an all-`have`
week succeeds with an empty list. -/
theorem c4_witness :
    generateShoppingList c4eSt "w1" = .error "No meals planned for this week" ∧
    generateShoppingList c4hSt "w1" = .ok ([], []) := by
  constructor
  · exact (c4_amended_error_iff_no_rows.1 c4eSt "w1").mpr (by simp [getMealPlanForWeek, c4eSt])
  · have h4 : jsParseFloat "4" = some 4 := by
      rw [jsParseFloat_eval "4" ⟨false, 4, 0, 0, false, 0⟩ (by decide)]
      norm_num [FloatScan.toRat]
    have h1 : jsParseFloat "1" = some 1 := by
      rw [jsParseFloat_eval "1" ⟨false, 1, 0, 0, false, 0⟩ (by decide)]
      norm_num [FloatScan.toRat]
    have hlow : jsToLower "milk" = "milk" := by decide
    have hm : getMealPlanForWeek c4hSt "w1" = [⟨"w1", "monday", "r1"⟩] := by
      simp [getMealPlanForWeek, c4hSt]
    have hagg : aggregateWeek c4hSt [⟨"w1", "monday", "r1"⟩] =
        [("milk", ⟨"milk", 5/8, "cup", "dairy"⟩)] := by
      simp [aggregateWeek, processMeal, getRecipe, getRecipeIngredients, c4hSt, aggInsert,
        lookupA, bump, scaledQty, multiplierOf, servingsOf, orElseNum, h4, h1, hlow]
      norm_num
    have hres := c4_amended_error_iff_no_rows.2 c4hSt "w1" (by simp [hm]) ?_
    · simpa [c4hSt] using hres
    · intro line hl
      rw [hm, hagg] at hl
      simp at hl
      subst hl
      simp [includedB, getInventoryItem, c4hSt, hlow]

/- === Claim C1 === -/

/-- Concrete store refuting C1: the inventory holds a `milk` record whose
status is the empty string (a blank sheet cell) — not `have`. -/
def c1St : StoreState :=
  { recipes := [⟨"r1", "Cereal", "4"⟩]
    ingredients := [⟨"r1", "milk", "1", "cup", "dairy"⟩]
    inventory := [⟨"milk", "", "dairy", ""⟩]
    mealPlan := [⟨"w1", "monday", "r1"⟩]
    shoppingList := [] }

/-- Counterexample to C1 as stated: an aggregated `milk` line exists, no
inventory record has status `have`, yet the line is excluded from the
generated list (the filter keeps a line only when the matched record's
status is `low` or `out`, so a blank status also suppresses it). -/
theorem c1_counterexample :
    generateShoppingList c1St "w1" = .ok ([], []) ∧
    (aggregateWeek c1St (getMealPlanForWeek c1St "w1")).map Prod.snd =
      [⟨"milk", 5/8, "cup", "dairy"⟩] ∧
    (∀ inv ∈ c1St.inventory, inv.status ≠ "have") := by
  have h4 : jsParseFloat "4" = some 4 := by
    rw [jsParseFloat_eval "4" ⟨false, 4, 0, 0, false, 0⟩ (by decide)]
    norm_num [FloatScan.toRat]
  have h1 : jsParseFloat "1" = some 1 := by
    rw [jsParseFloat_eval "1" ⟨false, 1, 0, 0, false, 0⟩ (by decide)]
    norm_num [FloatScan.toRat]
  have hlow : jsToLower "milk" = "milk" := by decide
  have hm : getMealPlanForWeek c1St "w1" = [⟨"w1", "monday", "r1"⟩] := by
    simp [getMealPlanForWeek, c1St]
  have hagg : aggregateWeek c1St [⟨"w1", "monday", "r1"⟩] =
      [("milk", ⟨"milk", 5/8, "cup", "dairy"⟩)] := by
    simp [aggregateWeek, processMeal, getRecipe, getRecipeIngredients, c1St, aggInsert,
      lookupA, bump, scaledQty, multiplierOf, servingsOf, orElseNum, h4, h1, hlow]
    norm_num
  refine ⟨?_, by rw [hm, hagg]; rfl, by simp [c1St]⟩
  rw [generateShoppingList, hm, hagg]
  have hinv : c1St.inventory = [⟨"milk", "", "dairy", ""⟩] := rfl
  have hshop : c1St.shoppingList = [] := rfl
  simp [filterAndPrice, includedB, getInventoryItem, hinv, hshop, hlow, buildItem]

/-- Claim C1 as amended: an aggregated line is excluded from the generated
list iff the inventory lookup by lowercased item name finds a record whose
status is neither `low` nor `out`; a line with no matching record, or whose
matched record has status `low` or `out`, is included. -/
theorem c1_amended_exclusion_rule (s : StoreState) (w : String) (lines : List AggLine)
    (line : AggLine) (hnd : (lines.map AggLine.item).Nodup) (hm : line ∈ lines) :
    buildItem s w line ∈ filterAndPrice s w lines ↔
      getInventoryItem s line.item = none ∨
        ∃ inv, getInventoryItem s line.item = some inv ∧
          (inv.status = "low" ∨ inv.status = "out") := by
  constructor
  · intro hmem
    obtain ⟨line', hm', hb', heq⟩ :=
      (mem_filterAndPrice s w lines (buildItem s w line)).mp hmem
    have hitem : line'.item = line.item :=
      (congrArg ShoppingListItem.item heq).symm
    have heq' : line' = line :=
      List.inj_on_of_nodup_map hnd hm' hm hitem
    subst heq'
    unfold includedB at hb'
    cases hinv : getInventoryItem s line'.item with
    | none => exact Or.inl rfl
    | some inv =>
      rw [hinv] at hb'
      right
      exact ⟨inv, rfl, by simpa using hb'⟩
  · intro hr
    apply (mem_filterAndPrice _ _ _ _).mpr
    refine ⟨line, hm, ?_, rfl⟩
    unfold includedB
    rcases hr with hn | ⟨inv, hi, hs⟩
    · rw [hn]
    · rw [hi]
      simpa using hs

/-- Concrete store for the C1 witness: milk is in inventory with status
`low`, so its aggregated line must be included. -/
def c1wSt : StoreState :=
  { recipes := [⟨"r1", "Cereal", "4"⟩]
    ingredients := [⟨"r1", "milk", "1", "cup", "dairy"⟩]
    inventory := [⟨"milk", "low", "dairy", ""⟩]
    mealPlan := [⟨"w1", "monday", "r1"⟩]
    shoppingList := [] }

/-- Witness for the amended C1 at the concrete store `c1wSt`. -/
theorem c1_witness :
    buildItem c1wSt "w1" ⟨"milk", 5/8, "cup", "dairy"⟩ ∈
      filterAndPrice c1wSt "w1" [⟨"milk", 5/8, "cup", "dairy"⟩] := by
  apply (c1_amended_exclusion_rule c1wSt "w1" [⟨"milk", 5/8, "cup", "dairy"⟩]
    ⟨"milk", 5/8, "cup", "dairy"⟩ (by simp) (by simp)).mpr
  right
  refine ⟨⟨"milk", "low", "dairy", ""⟩, ?_, Or.inl rfl⟩
  have hlow : jsToLower "milk" = "milk" := by decide
  simp [getInventoryItem, c1wSt, hlow]

/- === Claim C2 === -/

/-- Concrete store refuting C2: an ingredient quantity written as the
fraction `3/4`. -/
def c2St : StoreState :=
  { recipes := [⟨"r1", "Bread", "4"⟩]
    ingredients := [⟨"r1", "flour", "3/4", "cup", "pantry"⟩]
    inventory := []
    mealPlan := [⟨"w1", "monday", "r1"⟩]
    shoppingList := [] }

/-- Counterexample to C2 as stated: aggregation reads the quantity `"3/4"`
with `parseFloat` (value 3), producing the contribution `3 * 2.5/4 = 15/8`,
while the claim's `parseQuantity`-based contribution would be
`(3/4) * 2.5/4 = 15/32`. -/
theorem c2_counterexample :
    (aggregateWeek c2St (getMealPlanForWeek c2St "w1")).map Prod.snd =
      [⟨"flour", 15/8, "cup", "pantry"⟩] ∧
    parseQuantity (.str "3/4") * ((2.5 : ℚ) / 4) = 15/32 ∧
    (15/8 : ℚ) ≠ 15/32 := by
  have h4 : jsParseFloat "4" = some 4 := by
    rw [jsParseFloat_eval "4" ⟨false, 4, 0, 0, false, 0⟩ (by decide)]
    norm_num [FloatScan.toRat]
  have h34 : jsParseFloat "3/4" = some 3 := by
    rw [jsParseFloat_eval "3/4" ⟨false, 3, 0, 0, false, 0⟩ (by decide)]
    norm_num [FloatScan.toRat]
  have hlow : jsToLower "flour" = "flour" := by decide
  have hm : getMealPlanForWeek c2St "w1" = [⟨"w1", "monday", "r1"⟩] := by
    simp [getMealPlanForWeek, c2St]
  refine ⟨?_, ?_, by norm_num⟩
  · rw [hm]
    simp [aggregateWeek, processMeal, getRecipe, getRecipeIngredients, c2St, aggInsert,
      lookupA, bump, scaledQty, multiplierOf, servingsOf, orElseNum, h4, h34, hlow]
    norm_num
  · have hmm : matchMixed (trimL "3/4".data) = none := by decide
    have hmf : matchFrac (trimL "3/4".data) = some (3, 4) := by decide
    rw [show parseQuantity (.str "3/4") = parseQuantityCore (trimL "3/4".data) by
      simp [parseQuantity]]
    rw [parseQuantityCore, hmm, hmf]
    norm_num

/-- Claim C2 as amended: each aggregated line's quantity is the sum of
per-ingredient contributions `(parseFloat(quantity) || 0) * multiplier`
(collected by `contribsFor` over the week's resolved pairs); the target
serving size is the constant 2.5; a recipe whose servings field is missing
(`NaN`) or zero gets multiplier `2.5 / 4`; and the effective servings value
is never zero, so no division by zero occurs. -/
theorem c2_amended_contributions :
    (∀ (s : StoreState) (meals : List MealPlanEntry) (k : String) (line : AggLine),
       lookupA k (aggregateWeek s meals) = some line →
       line.quantity = (contribsFor k (weekPairs s meals)).sum) ∧
    (∀ r : Recipe, jsParseFloat r.servings = none ∨ jsParseFloat r.servings = some 0 →
       multiplierOf r = (2.5 : ℚ) / 4) ∧
    (∀ r : Recipe, servingsOf r ≠ 0) := by
  refine ⟨?_, ?_, servingsOf_ne_zero⟩
  · intro s meals k line h
    rw [agg_lookup] at h
    cases hf : firstIngFor k (weekPairs s meals) with
    | none => rw [hf] at h; cases h
    | some ing =>
      rw [hf] at h
      simp only [Option.map_some'] at h
      injection h with h
      rw [← h]
  · intro r hr
    unfold multiplierOf servingsOf orElseNum
    rcases hr with h | h <;> rw [h]
    simp

/-- Witness for the amended C2 at the concrete store `c2St` and a recipe
with servings `"0"`. -/
theorem c2_witness :
    (⟨"flour", 15/8, "cup", "pantry"⟩ : AggLine).quantity =
      (contribsFor "flour" (weekPairs c2St [⟨"w1", "monday", "r1"⟩])).sum ∧
    multiplierOf ⟨"r0", "Stew", "0"⟩ = (2.5 : ℚ) / 4 ∧
    servingsOf ⟨"r0", "Stew", "0"⟩ ≠ 0 := by
  have h4 : jsParseFloat "4" = some 4 := by
    rw [jsParseFloat_eval "4" ⟨false, 4, 0, 0, false, 0⟩ (by decide)]
    norm_num [FloatScan.toRat]
  have h34 : jsParseFloat "3/4" = some 3 := by
    rw [jsParseFloat_eval "3/4" ⟨false, 3, 0, 0, false, 0⟩ (by decide)]
    norm_num [FloatScan.toRat]
  have h0 : jsParseFloat "0" = some 0 := by
    rw [jsParseFloat_eval "0" ⟨false, 0, 0, 0, false, 0⟩ (by decide)]
    norm_num [FloatScan.toRat]
  have hlow : jsToLower "flour" = "flour" := by decide
  have hagg : aggregateWeek c2St [⟨"w1", "monday", "r1"⟩] =
      [("flour", ⟨"flour", 15/8, "cup", "pantry"⟩)] := by
    simp [aggregateWeek, processMeal, getRecipe, getRecipeIngredients, c2St, aggInsert,
      lookupA, bump, scaledQty, multiplierOf, servingsOf, orElseNum, h4, h34, hlow]
    norm_num
  refine ⟨c2_amended_contributions.1 c2St [⟨"w1", "monday", "r1"⟩] "flour"
      ⟨"flour", 15/8, "cup", "pantry"⟩ (by rw [hagg]; simp [lookupA]),
    c2_amended_contributions.2.1 ⟨"r0", "Stew", "0"⟩ (Or.inr h0),
    c2_amended_contributions.2.2 ⟨"r0", "Stew", "0"⟩⟩

/- === Claim C3 === -/

/-- Concrete store refuting C3: the same recipe lists `flour` and `flour `
(trailing space); their normalized (lowercased, trimmed) names coincide. -/
def c3St : StoreState :=
  { recipes := [⟨"r1", "Bread", "4"⟩]
    ingredients := [⟨"r1", "flour", "1", "cup", "pantry"⟩,
                    ⟨"r1", "flour ", "1", "cup", "pantry"⟩]
    inventory := []
    mealPlan := [⟨"w1", "monday", "r1"⟩]
    shoppingList := [] }

/-- Counterexample to C3 as stated: the two occurrences have equal normalized
item names (`lowercase + trim` gives `flour` for both), yet aggregation
produces two separate lines, because the aggregation key is only lowercased,
never trimmed. -/
theorem c3_counterexample :
    aggregateWeek c3St (getMealPlanForWeek c3St "w1") =
      [("flour", ⟨"flour", 5/8, "cup", "pantry"⟩),
       ("flour ", ⟨"flour ", 5/8, "cup", "pantry"⟩)] ∧
    normalizeItemName "flour" = normalizeItemName "flour " := by
  have h4 : jsParseFloat "4" = some 4 := by
    rw [jsParseFloat_eval "4" ⟨false, 4, 0, 0, false, 0⟩ (by decide)]
    norm_num [FloatScan.toRat]
  have h1 : jsParseFloat "1" = some 1 := by
    rw [jsParseFloat_eval "1" ⟨false, 1, 0, 0, false, 0⟩ (by decide)]
    norm_num [FloatScan.toRat]
  have hlow : jsToLower "flour" = "flour" := by decide
  have hlow' : jsToLower "flour " = "flour " := by decide
  have hm : getMealPlanForWeek c3St "w1" = [⟨"w1", "monday", "r1"⟩] := by
    simp [getMealPlanForWeek, c3St]
  refine ⟨?_, by decide⟩
  rw [hm]
  simp [aggregateWeek, processMeal, getRecipe, getRecipeIngredients, c3St, aggInsert,
    lookupA, bump, scaledQty, multiplierOf, servingsOf, orElseNum, h4, h1, hlow, hlow']
  norm_num

/-- Claim C3 as amended: two ingredient occurrences are merged into one
aggregated line iff their lowercased — not trimmed — item names are equal as
exact strings (the key `jsToLower ing.item` of `contribsFor`/`firstIngFor`);
the line carries the first occurrence's display name, unit and category, and
its quantity is the sum of all scaled contributions with that key, later
occurrences adding to the total without changing unit or category. -/
theorem c3_amended_merge_by_lowercase (s : StoreState) (meals : List MealPlanEntry)
    (k : String) :
    lookupA k (aggregateWeek s meals) =
      (firstIngFor k (weekPairs s meals)).map
        (fun ing =>
          ⟨ing.item, (contribsFor k (weekPairs s meals)).sum, ing.unit, ing.category⟩) :=
  agg_lookup s meals k

/- === Claim C8 === -/

/-- Concrete store refuting C8: an ingredient quantity entered as `-1`
(ingredient quantity text is not validated anywhere). -/
def c8St : StoreState :=
  { recipes := [⟨"r1", "Soup", "4"⟩]
    ingredients := [⟨"r1", "broth", "-1", "cup", "pantry"⟩]
    inventory := []
    mealPlan := [⟨"w1", "monday", "r1"⟩]
    shoppingList := [] }

/-- Counterexample to C8 as stated: with quantity `"-1"` and servings `"4"`,
generation succeeds and produces a shopping-list row whose quantity
`round2 (-5/8) = -31/50` is negative. -/
theorem c8_counterexample :
    generateShoppingList c8St "w1" =
      .ok ([⟨"w1", "broth", -31/50, "cup", "pantry", .empty, "FALSE", "FALSE"⟩],
           [⟨"w1", "broth", -31/50, "cup", "pantry", .empty, "FALSE", "FALSE"⟩]) ∧
    ((-31/50 : ℚ) < 0) := by
  have h4 : jsParseFloat "4" = some 4 := by
    rw [jsParseFloat_eval "4" ⟨false, 4, 0, 0, false, 0⟩ (by decide)]
    norm_num [FloatScan.toRat]
  have hn1 : jsParseFloat "-1" = some (-1) := by
    rw [jsParseFloat_eval "-1" ⟨true, 1, 0, 0, false, 0⟩ (by decide)]
    norm_num [FloatScan.toRat]
  have hlow : jsToLower "broth" = "broth" := by decide
  have hm : getMealPlanForWeek c8St "w1" = [⟨"w1", "monday", "r1"⟩] := by
    simp [getMealPlanForWeek, c8St]
  have hagg : aggregateWeek c8St [⟨"w1", "monday", "r1"⟩] =
      [("broth", ⟨"broth", -5/8, "cup", "pantry"⟩)] := by
    simp [aggregateWeek, processMeal, getRecipe, getRecipeIngredients, c8St, aggInsert,
      lookupA, bump, scaledQty, multiplierOf, servingsOf, orElseNum, h4, hn1, hlow]
    norm_num
  refine ⟨?_, by norm_num⟩
  rw [generateShoppingList, hm, hagg]
  have hinv : c8St.inventory = [] := rfl
  have hshop : c8St.shoppingList = [] := rfl
  simp [filterAndPrice, includedB, getInventoryItem, hinv, hshop, hlow, buildItem, round2]
  norm_num [round_eq]

/-- Claim C8 as amended: when every ingredient quantity parses to a
non-negative value (or fails to parse, defaulting to 0) and every recipe's
effective servings value is positive, every generated row's quantity is
non-negative. -/
theorem c8_amended_nonneg (s : StoreState) (w : String)
    (hq : ∀ ing ∈ s.ingredients, 0 ≤ orElseNum 0 (jsParseFloat ing.quantity))
    (hs : ∀ r ∈ s.recipes, 0 < servingsOf r)
    (items newList : List ShoppingListItem)
    (h : generateShoppingList s w = .ok (items, newList)) :
    ∀ it ∈ items, 0 ≤ it.quantity := by
  obtain ⟨hne, hitems, hnew⟩ := generate_ok_elim s w items newList h
  intro it hit
  rw [hitems] at hit
  obtain ⟨line, hlm, hb, rfl⟩ := (mem_filterAndPrice _ _ _ _).mp hit
  show 0 ≤ round2 line.quantity
  apply round2_nonneg
  obtain ⟨ing, hfi, rfl⟩ := mem_agg_line s (getMealPlanForWeek s w) line hlm
  show 0 ≤ (contribsFor (jsToLower ing.item) (weekPairs s (getMealPlanForWeek s w))).sum
  apply List.sum_nonneg
  intro q hq'
  obtain ⟨p, hp, hq2⟩ := List.mem_filterMap.mp hq'
  obtain ⟨m, ping⟩ := p
  by_cases hk : jsToLower ping.item = jsToLower ing.item
  · rw [if_pos hk] at hq2
    injection hq2 with hq2
    subst hq2
    obtain ⟨⟨r, hr, rfl⟩, hing⟩ := weekPairs_mem s _ m ping hp
    unfold scaledQty multiplierOf
    apply mul_nonneg (hq _ hing)
    apply le_of_lt
    apply div_pos (by norm_num) (hs r hr)
  · rw [if_neg hk] at hq2
    cases hq2

/-- Concrete store for the C8 witness, with a well-formed positive quantity. -/
def c8wSt : StoreState :=
  { recipes := [⟨"r1", "Pasta", "4"⟩]
    ingredients := [⟨"r1", "penne", "2", "lb", "pantry"⟩]
    inventory := []
    mealPlan := [⟨"w1", "monday", "r1"⟩]
    shoppingList := [] }

/-- The generated rows of the C8 witness. -/
def c8wItems : List ShoppingListItem :=
  [⟨"w1", "penne", 5/4, "lb", "pantry", .empty, "FALSE", "FALSE"⟩]

theorem c8w_generate_eval : generateShoppingList c8wSt "w1" = .ok (c8wItems, c8wItems) := by
  have h4 : jsParseFloat "4" = some 4 := by
    rw [jsParseFloat_eval "4" ⟨false, 4, 0, 0, false, 0⟩ (by decide)]
    norm_num [FloatScan.toRat]
  have h2 : jsParseFloat "2" = some 2 := by
    rw [jsParseFloat_eval "2" ⟨false, 2, 0, 0, false, 0⟩ (by decide)]
    norm_num [FloatScan.toRat]
  have hlow : jsToLower "penne" = "penne" := by decide
  have hm : getMealPlanForWeek c8wSt "w1" = [⟨"w1", "monday", "r1"⟩] := by
    simp [getMealPlanForWeek, c8wSt]
  have hagg : aggregateWeek c8wSt [⟨"w1", "monday", "r1"⟩] =
      [("penne", ⟨"penne", 5/4, "lb", "pantry"⟩)] := by
    simp [aggregateWeek, processMeal, getRecipe, getRecipeIngredients, c8wSt, aggInsert,
      lookupA, bump, scaledQty, multiplierOf, servingsOf, orElseNum, h4, h2, hlow]
    norm_num
  rw [generateShoppingList, hm, hagg]
  have hinv : c8wSt.inventory = [] := rfl
  have hshop : c8wSt.shoppingList = [] := rfl
  simp [filterAndPrice, includedB, getInventoryItem, hinv, hshop, hlow, buildItem, round2,
    c8wItems]
  norm_num [round_eq]

/-- Witness for the amended C8 at the concrete store `c8wSt` and its one
generated row. -/
theorem c8_witness :
    (0 : ℚ) ≤ (⟨"w1", "penne", 5/4, "lb", "pantry", .empty, "FALSE", "FALSE"⟩ :
      ShoppingListItem).quantity := by
  refine c8_amended_nonneg c8wSt "w1" ?_ ?_ c8wItems c8wItems c8w_generate_eval _
    (by simp [c8wItems])
  · intro ing hing
    have h2 : jsParseFloat "2" = some 2 := by
      rw [jsParseFloat_eval "2" ⟨false, 2, 0, 0, false, 0⟩ (by decide)]
      norm_num [FloatScan.toRat]
    have : ing = ⟨"r1", "penne", "2", "lb", "pantry"⟩ := by
      simpa [c8wSt] using hing
    subst this
    rw [show (⟨"r1", "penne", "2", "lb", "pantry"⟩ : Ingredient).quantity = "2" from rfl, h2]
    norm_num [orElseNum]
  · intro r hr
    have h4 : jsParseFloat "4" = some 4 := by
      rw [jsParseFloat_eval "4" ⟨false, 4, 0, 0, false, 0⟩ (by decide)]
      norm_num [FloatScan.toRat]
    have : r = ⟨"r1", "Pasta", "4"⟩ := by
      simpa [c8wSt] using hr
    subst this
    unfold servingsOf
    rw [show (⟨"r1", "Pasta", "4"⟩ : Recipe).servings = "4" from rfl, h4]
    norm_num [orElseNum]

/- === Claim C7 === -/

theorem takeWhile_all_of_all (p : Char → Bool) (l : List Char)
    (hl : ∀ c ∈ l, p c = true) : l.takeWhile p = l ∧ l.dropWhile p = [] := by
  have h := takeWhile_append_all p [] (by intro c hc; cases hc) l hl
  simpa using h

theorem isEmpty_false_of_ne (l : List Char) (h : l ≠ []) : l.isEmpty = false := by
  cases l with
  | nil => exact absurd rfl h
  | cons c t => rfl

theorem scanSigned_not_sign (l : List Char)
    (h : ∀ c, l.head? = some c → c ≠ '+' ∧ c ≠ '-') : scanSigned l = scanUnsigned l := by
  cases l with
  | nil => rfl
  | cons c t =>
    obtain ⟨h1, h2⟩ := h c rfl
    unfold scanSigned
    split
    · rename_i heq
      injection heq with hc _
      exact absurd hc h1
    · rename_i heq
      injection heq with hc _
      exact absurd hc h2
    · rfl

theorem toRat_simple (v : ℕ) : FloatScan.toRat ⟨false, v, 0, 0, false, 0⟩ = v := by
  simp [FloatScan.toRat]

theorem toRat_decimal (a b l : ℕ) :
    FloatScan.toRat ⟨false, a, b, l, false, 0⟩ = (a : ℚ) + (b : ℚ) / (10 : ℚ) ^ l := by
  simp [FloatScan.toRat]

theorem matchMixed_shape (w n d : List Char) (hw : w ≠ []) (hn : n ≠ []) (hd : d ≠ [])
    (hwD : ∀ c ∈ w, isDig c = true) (hnD : ∀ c ∈ n, isDig c = true)
    (hdD : ∀ c ∈ d, isDig c = true) :
    matchMixed (w ++ (' ' :: (n ++ ('/' :: d)))) =
      some (digitsToNat w, digitsToNat n, digitsToNat d) := by
  obtain ⟨h1t, h1d⟩ := takeWhile_append_all isDig (' ' :: (n ++ ('/' :: d)))
    (by intro c hc; injection hc with hc; subst hc; decide) w hwD
  obtain ⟨c₀, n', rfl⟩ : ∃ c₀ n', n = c₀ :: n' := by
    cases n with
    | nil => exact absurd rfl hn
    | cons a b => exact ⟨a, b, rfl⟩
  have hc₀ : isDig c₀ = true := hnD c₀ (by simp)
  obtain ⟨h2t, h2d⟩ := takeWhile_append_all isWs ((c₀ :: n') ++ ('/' :: d))
    (by
      intro c hc
      injection hc with hc
      subst hc
      exact not_isWs_of_isDig c₀ hc₀) [' '] (by intro c hc; simp at hc; subst hc; rfl)
  obtain ⟨h3t, h3d⟩ := takeWhile_append_all isDig ('/' :: d)
    (by intro c hc; injection hc with hc; subst hc; decide) (c₀ :: n') hnD
  obtain ⟨h4t, h4d⟩ := takeWhile_all_of_all isDig d hdD
  simp only [List.cons_append, List.nil_append] at h1t h1d h2t h2d h3t h3d
  simp only [matchMixed, List.cons_append, List.nil_append, h1t, h1d, h2t, h2d, h3t, h3d,
    h4t, h4d, isEmpty_false_of_ne w hw, isEmpty_false_of_ne d hd, List.isEmpty_cons,
    Bool.false_eq_true, if_false]
  simp

theorem matchFrac_shape (n d : List Char) (hn : n ≠ []) (hd : d ≠ [])
    (hnD : ∀ c ∈ n, isDig c = true) (hdD : ∀ c ∈ d, isDig c = true) :
    matchFrac (n ++ ('/' :: d)) = some (digitsToNat n, digitsToNat d) := by
  obtain ⟨h1t, h1d⟩ := takeWhile_append_all isDig ('/' :: d)
    (by intro c hc; injection hc with hc; subst hc; decide) n hnD
  obtain ⟨h2t, h2d⟩ := takeWhile_all_of_all isDig d hdD
  simp only [matchFrac, h1t, h1d, h2t, h2d, isEmpty_false_of_ne n hn,
    isEmpty_false_of_ne d hd, Bool.false_eq_true, if_false]
  simp

theorem matchMixed_frac_none (n d : List Char) (hnD : ∀ c ∈ n, isDig c = true) :
    matchMixed (n ++ ('/' :: d)) = none := by
  by_cases hn : n = []
  · subst hn
    rfl
  · obtain ⟨h1t, h1d⟩ := takeWhile_append_all isDig ('/' :: d)
      (by intro c hc; injection hc with hc; subst hc; decide) n hnD
    simp only [matchMixed, h1t, h1d, isEmpty_false_of_ne n hn, Bool.false_eq_true, if_false]
    simp [List.takeWhile_cons]
    intro hws
    exact absurd hws (by decide)

theorem matchMixed_digits_none (ds : List Char) (hD : ∀ c ∈ ds, isDig c = true) :
    matchMixed ds = none := by
  by_cases h : ds = []
  · subst h
    rfl
  · obtain ⟨ht, hd'⟩ := takeWhile_all_of_all isDig ds hD
    have hds : ds = ds ++ [] := by simp
    simp only [matchMixed, ht, hd', isEmpty_false_of_ne ds h, Bool.false_eq_true, if_false]
    simp

theorem matchFrac_digits_none (ds : List Char) (hD : ∀ c ∈ ds, isDig c = true) :
    matchFrac ds = none := by
  by_cases h : ds = []
  · subst h
    rfl
  · obtain ⟨ht, hd'⟩ := takeWhile_all_of_all isDig ds hD
    simp only [matchFrac, ht, hd', isEmpty_false_of_ne ds h, Bool.false_eq_true, if_false]

theorem matchMixed_decimal_none (ds fs : List Char) (hdsD : ∀ c ∈ ds, isDig c = true) :
    matchMixed (ds ++ ('.' :: fs)) = none := by
  by_cases h : ds = []
  · subst h
    simp only [List.nil_append]
    rfl
  · obtain ⟨h1t, h1d⟩ := takeWhile_append_all isDig ('.' :: fs)
      (by intro c hc; injection hc with hc; subst hc; decide) ds hdsD
    simp only [matchMixed, h1t, h1d, isEmpty_false_of_ne ds h, Bool.false_eq_true, if_false]
    simp [List.takeWhile_cons]
    intro hws
    exact absurd hws (by decide)

theorem matchFrac_decimal_none (ds fs : List Char) (hdsD : ∀ c ∈ ds, isDig c = true) :
    matchFrac (ds ++ ('.' :: fs)) = none := by
  by_cases h : ds = []
  · subst h
    simp only [List.nil_append]
    rfl
  · obtain ⟨h1t, h1d⟩ := takeWhile_append_all isDig ('.' :: fs)
      (by intro c hc; injection hc with hc; subst hc; decide) ds hdsD
    simp only [matchFrac, h1t, h1d, isEmpty_false_of_ne ds h, Bool.false_eq_true, if_false]
    split
    · rename_i heq
      injection heq with hc _
      exact absurd hc (by decide)
    · rfl

theorem scanUnsigned_digits (ds : List Char) (h : ds ≠ [])
    (hD : ∀ c ∈ ds, isDig c = true) :
    scanUnsigned ds = some ⟨false, digitsToNat ds, 0, 0, false, 0⟩ := by
  obtain ⟨ht, hd'⟩ := takeWhile_all_of_all isDig ds hD
  simp only [scanUnsigned, ht, hd', isEmpty_false_of_ne ds h, Bool.false_eq_true, if_false]
  rfl

theorem scanUnsigned_decimal (ds fs : List Char) (hds : ds ≠ [])
    (hdsD : ∀ c ∈ ds, isDig c = true) (hfsD : ∀ c ∈ fs, isDig c = true) :
    scanUnsigned (ds ++ ('.' :: fs)) =
      some ⟨false, digitsToNat ds, digitsToNat fs, fs.length, false, 0⟩ := by
  obtain ⟨h1t, h1d⟩ := takeWhile_append_all isDig ('.' :: fs)
    (by intro c hc; injection hc with hc; subst hc; decide) ds hdsD
  obtain ⟨h2t, h2d⟩ := takeWhile_all_of_all isDig fs hfsD
  simp only [scanUnsigned, h1t, h1d, h2t, h2d, isEmpty_false_of_ne ds hds,
    Bool.false_eq_true, if_false]
  rfl

theorem head?_append_ne (w r : List Char) (hw : w ≠ []) : (w ++ r).head? = w.head? := by
  cases w with
  | nil => exact absurd rfl hw
  | cons a t => rfl

theorem head_digit_of_all (w : List Char) (hD : ∀ c ∈ w, isDig c = true) :
    ∀ c, w.head? = some c → isDig c = true := by
  intro c hc
  apply hD
  cases w with
  | nil => cases hc
  | cons a t =>
    injection hc with hc
    subst hc
    simp

theorem getLast?_append_cons (l₁ : List Char) (a : Char) (l₂ : List Char) :
    (l₁ ++ (a :: l₂)).getLast? = (a :: l₂).getLast? :=
  List.getLast?_append_of_ne_nil l₁ (by simp)

theorem getLast?_cons_of_ne (a : Char) (l : List Char) (h : l ≠ []) :
    (a :: l).getLast? = l.getLast? :=
  List.getLast?_append_of_ne_nil [a] h

theorem last_digit_of_all (l : List Char) (hD : ∀ c ∈ l, isDig c = true) :
    ∀ c, l.getLast? = some c → isDig c = true :=
  fun c hc => hD c (mem_getLast?_list l c hc)

theorem parseQuantity_str_core (l : List Char) (hne : l ≠ [])
    (hh : ∀ c, l.head? = some c → isDig c = true)
    (hl : ∀ c, l.getLast? = some c → isDig c = true) :
    parseQuantity (.str ⟨l⟩) = parseQuantityCore l := by
  show (if (⟨l⟩ : String) = "" then 0
    else parseQuantityCore (trimL (⟨l⟩ : String).data)) = parseQuantityCore l
  rw [if_neg (mk_ne_empty l hne)]
  show parseQuantityCore (trimL l) = parseQuantityCore l
  rw [trimL_eq_self l (fun c hc => not_isWs_of_isDig c (hh c hc))
    (fun c hc => not_isWs_of_isDig c (hl c hc))]

theorem parseQuantity_mixed (w n d : List Char) (hw : w ≠ []) (hn : n ≠ []) (hd : d ≠ [])
    (hwD : ∀ c ∈ w, isDig c = true) (hnD : ∀ c ∈ n, isDig c = true)
    (hdD : ∀ c ∈ d, isDig c = true) :
    parseQuantity (.str ⟨w ++ (' ' :: (n ++ ('/' :: d)))⟩) =
      (digitsToNat w : ℚ) + (digitsToNat n : ℚ) / (digitsToNat d : ℚ) := by
  rw [parseQuantity_str_core _ (by simp [hw]) ?hh ?hl]
  case hh =>
    intro c hc
    rw [head?_append_ne w _ hw] at hc
    exact head_digit_of_all w hwD c hc
  case hl =>
    intro c hc
    rw [getLast?_append_cons w ' ' _, getLast?_cons_of_ne ' ' _ (by simp),
      getLast?_append_cons n '/' d, getLast?_cons_of_ne '/' d hd] at hc
    exact last_digit_of_all d hdD c hc
  unfold parseQuantityCore
  rw [matchMixed_shape w n d hw hn hd hwD hnD hdD]

theorem parseQuantity_frac (n d : List Char) (hn : n ≠ []) (hd : d ≠ [])
    (hnD : ∀ c ∈ n, isDig c = true) (hdD : ∀ c ∈ d, isDig c = true) :
    parseQuantity (.str ⟨n ++ ('/' :: d)⟩) =
      (digitsToNat n : ℚ) / (digitsToNat d : ℚ) := by
  rw [parseQuantity_str_core _ (by simp [hn]) ?hh ?hl]
  case hh =>
    intro c hc
    rw [head?_append_ne n _ hn] at hc
    exact head_digit_of_all n hnD c hc
  case hl =>
    intro c hc
    rw [getLast?_append_cons n '/' d, getLast?_cons_of_ne '/' d hd] at hc
    exact last_digit_of_all d hdD c hc
  unfold parseQuantityCore
  rw [matchMixed_frac_none n d hnD, matchFrac_shape n d hn hd hnD hdD]

theorem parseQuantity_int (ds : List Char) (hds : ds ≠ [])
    (hD : ∀ c ∈ ds, isDig c = true) :
    parseQuantity (.str ⟨ds⟩) = (digitsToNat ds : ℚ) := by
  rw [parseQuantity_str_core _ hds (head_digit_of_all ds hD) (last_digit_of_all ds hD)]
  unfold parseQuantityCore
  rw [matchMixed_digits_none ds hD, matchFrac_digits_none ds hD]
  rw [scanSigned_not_sign ds ?hsgn]
  case hsgn =>
    intro c hc
    have hcD := head_digit_of_all ds hD c hc
    exact ⟨isDig_ne c '+' hcD (by decide), isDig_ne c '-' hcD (by decide)⟩
  rw [scanUnsigned_digits ds hds hD]
  show orElseNum 0 (some (FloatScan.toRat ⟨false, digitsToNat ds, 0, 0, false, 0⟩)) = _
  rw [orElseNum_zero_some, toRat_simple]

theorem parseQuantity_dec (ds fs : List Char) (hds : ds ≠ []) (hfs : fs ≠ [])
    (hdsD : ∀ c ∈ ds, isDig c = true) (hfsD : ∀ c ∈ fs, isDig c = true) :
    parseQuantity (.str ⟨ds ++ ('.' :: fs)⟩) =
      (digitsToNat ds : ℚ) + (digitsToNat fs : ℚ) / (10 : ℚ) ^ fs.length := by
  rw [parseQuantity_str_core _ (by simp [hds]) ?hh ?hl]
  case hh =>
    intro c hc
    rw [head?_append_ne ds _ hds] at hc
    exact head_digit_of_all ds hdsD c hc
  case hl =>
    intro c hc
    rw [getLast?_append_cons ds '.' fs, getLast?_cons_of_ne '.' fs hfs] at hc
    exact last_digit_of_all fs hfsD c hc
  unfold parseQuantityCore
  rw [matchMixed_decimal_none ds fs hdsD, matchFrac_decimal_none ds fs hdsD]
  rw [scanSigned_not_sign _ ?hsgn]
  case hsgn =>
    intro c hc
    rw [head?_append_ne ds _ hds] at hc
    have hcD := head_digit_of_all ds hdsD c hc
    exact ⟨isDig_ne c '+' hcD (by decide), isDig_ne c '-' hcD (by decide)⟩
  rw [scanUnsigned_decimal ds fs hds hdsD hfsD]
  show orElseNum 0 (some (FloatScan.toRat
    ⟨false, digitsToNat ds, digitsToNat fs, fs.length, false, 0⟩)) = _
  rw [orElseNum_zero_some, toRat_decimal]

/-- Claim C7: `parseQuantity` is total over `ℚ` (never throws); a numeric
input is returned directly; digit text of the mixed-number shape `W N/D`
yields `W + N/D`, the simple-fraction shape `N/D` yields `N/D` (both stated
for nonzero denominators — a zero denominator yields JavaScript
`Infinity`/`NaN`, outside the rational model), plain integer or decimal
digit text yields its decimal value, and unparseable text yields 0; the
shapes are recognized in that priority order (`"3/4"` parses as the fraction
3/4, not as `parseFloat`'s prefix 3). -/
theorem c7_parseQuantity_shapes :
    (∀ q : ℚ, parseQuantity (.num q) = q) ∧
    (∀ w n d : List Char, w ≠ [] → n ≠ [] → d ≠ [] →
       (∀ c ∈ w, isDig c = true) → (∀ c ∈ n, isDig c = true) →
       (∀ c ∈ d, isDig c = true) → digitsToNat d ≠ 0 →
       parseQuantity (.str ⟨w ++ (' ' :: (n ++ ('/' :: d)))⟩) =
         (digitsToNat w : ℚ) + (digitsToNat n : ℚ) / (digitsToNat d : ℚ)) ∧
    (∀ n d : List Char, n ≠ [] → d ≠ [] →
       (∀ c ∈ n, isDig c = true) → (∀ c ∈ d, isDig c = true) → digitsToNat d ≠ 0 →
       parseQuantity (.str ⟨n ++ ('/' :: d)⟩) =
         (digitsToNat n : ℚ) / (digitsToNat d : ℚ)) ∧
    (∀ ds : List Char, ds ≠ [] → (∀ c ∈ ds, isDig c = true) →
       parseQuantity (.str ⟨ds⟩) = (digitsToNat ds : ℚ)) ∧
    (∀ ds fs : List Char, ds ≠ [] → fs ≠ [] →
       (∀ c ∈ ds, isDig c = true) → (∀ c ∈ fs, isDig c = true) →
       parseQuantity (.str ⟨ds ++ ('.' :: fs)⟩) =
         (digitsToNat ds : ℚ) + (digitsToNat fs : ℚ) / (10 : ℚ) ^ fs.length) ∧
    parseQuantity (.str "1 1/2") = 3/2 ∧
    parseQuantity (.str "3/4") = 3/4 ∧
    parseQuantity (.str "abc") = 0 := by
  refine ⟨fun q => rfl, ?_, ?_, ?_, ?_, ?_, ?_, ?_⟩
  · intro w n d hw hn hd hwD hnD hdD _
    exact parseQuantity_mixed w n d hw hn hd hwD hnD hdD
  · intro n d hn hd hnD hdD _
    exact parseQuantity_frac n d hn hd hnD hdD
  · exact parseQuantity_int
  · exact parseQuantity_dec
  · have hmm : matchMixed (trimL "1 1/2".data) = some (1, 1, 2) := by decide
    show parseQuantityCore (trimL "1 1/2".data) = 3/2
    rw [parseQuantityCore, hmm]
    norm_num
  · have hmm : matchMixed (trimL "3/4".data) = none := by decide
    have hmf : matchFrac (trimL "3/4".data) = some (3, 4) := by decide
    show parseQuantityCore (trimL "3/4".data) = 3/4
    rw [parseQuantityCore, hmm, hmf]
    norm_num
  · have hmm : matchMixed (trimL "abc".data) = none := by decide
    have hmf : matchFrac (trimL "abc".data) = none := by decide
    have hsc : scanSigned (trimL "abc".data) = none := by decide
    show parseQuantityCore (trimL "abc".data) = 0
    rw [parseQuantityCore, hmm, hmf, hsc]
    rfl

/-- Witness for C7 at concrete inputs of each shape. -/
theorem c7_witness :
    parseQuantity (.num (7/3)) = 7/3 ∧
    parseQuantity (.str ⟨['2'] ++ (' ' :: (['1'] ++ ('/' :: ['4'])))⟩) = 9/4 ∧
    parseQuantity (.str ⟨['1'] ++ ('/' :: ['8'])⟩) = 1/8 ∧
    parseQuantity (.str ⟨['4', '2']⟩) = 42 ∧
    parseQuantity (.str ⟨['0'] ++ ('.' :: ['5'])⟩) = 1/2 := by
  have e2 : digitsToNat ['2'] = 2 := by decide
  have e1 : digitsToNat ['1'] = 1 := by decide
  have e4 : digitsToNat ['4'] = 4 := by decide
  have e8 : digitsToNat ['8'] = 8 := by decide
  have e42 : digitsToNat ['4', '2'] = 42 := by decide
  have e0 : digitsToNat ['0'] = 0 := by decide
  have e5 : digitsToNat ['5'] = 5 := by decide
  refine ⟨c7_parseQuantity_shapes.1 (7/3), ?_, ?_, ?_, ?_⟩
  · rw [c7_parseQuantity_shapes.2.1 ['2'] ['1'] ['4'] (by decide) (by decide) (by decide)
      (by decide) (by decide) (by decide) (by decide), e2, e1, e4]
    norm_num
  · rw [c7_parseQuantity_shapes.2.2.1 ['1'] ['8'] (by decide) (by decide) (by decide)
      (by decide) (by decide), e1, e8]
    norm_num
  · rw [c7_parseQuantity_shapes.2.2.2.1 ['4', '2'] (by decide) (by decide), e42]
    norm_num
  · rw [c7_parseQuantity_shapes.2.2.2.2.1 ['0'] ['5'] (by decide) (by decide) (by decide)
      (by decide), e0, e5]
    norm_num
